import Mathlib

/-!
Verification of the SmartSpiderV2 crawl-engine core against its
specification.  The Python sources are shallowly embedded: pure fragments
become Lean functions, stateful methods become explicit state-passing
functions, `float` delay arithmetic is modelled over `ℚ`, Python `int`
counters over `Nat`/`Int`, and raised exceptions become `Except` values.
Random draws (`random.uniform`, `random.random`) are modelled by an explicit
parameter for the drawn value.
-/

/-- Exception taxonomy seen by `RetryHandler._should_retry_on_exception`
(`smart_spider/core/exceptions.py` plus the aiohttp client errors).  All five
smart-spider exception classes are direct subclasses of
`SmartSpiderException`, so the `isinstance` tests in the retry predicate are
mutually exclusive and an inductive with one constructor per class is
faithful.  `clientResponseError` carries the HTTP status; `otherClientError`
is an aiohttp `ClientError` that is neither a `ClientResponseError` nor a
connection-level error; `otherExc` is any other exception, both carrying the
Python type name used by the custom-rule lookup. -/
inductive PyExc where
  | network
  | timeoutExc
  | rateLimit
  | proxyExc
  | serverExc
  | clientResponseError (status : Nat)
  | serverDisconnected
  | clientOSError
  | otherClientError (typeName : String)
  | otherExc (typeName : String)
deriving DecidableEq, Repr

/-- Configuration of `RetryHandler.__init__`
(`smart_spider/engine/retry_handler.py:18-56`).  `retry_status_codes` is the
default set already merged with any `custom_retry_rules['status_codes']`;
`custom_exception_rules` models `custom_retry_rules['exceptions']` as an
association list from exception type name to the retry decision. -/
structure RetryHandler where
  max_retries : Nat := 3
  base_delay : ℚ := 1
  max_delay : ℚ := 60
  exponential_base : ℚ := 2
  jitter : Bool := true
  retry_on_timeout : Bool := true
  retry_on_rate_limit : Bool := true
  custom_exception_rules : List (String × Bool) := []
  retry_status_codes : List Nat :=
    [408, 429, 500, 502, 503, 504, 520, 521, 522, 523, 524]
deriving Repr

/-- The exception-class part of `RetryHandler._should_retry_on_exception`
(`retry_handler.py:118-158`), i.e. everything after the initial
`attempt >= self.max_retries` guard, translated branch for branch. -/
def RetryHandler.retryDecision (h : RetryHandler) (e : PyExc) : Bool :=
  match e with
  | .network => h.retry_on_timeout
  | .timeoutExc => h.retry_on_timeout
  | .rateLimit => h.retry_on_rate_limit
  | .proxyExc => true
  | .serverExc => true
  | .clientResponseError status =>
      if status ∈ h.retry_status_codes then true
      else if 400 ≤ status ∧ status < 500 ∧ status ≠ 408 ∧ status ≠ 429 then
        false
      else true
  | .serverDisconnected => true
  | .clientOSError => true
  | .otherClientError typeName =>
      -- an aiohttp ClientError of another subtype falls through the
      -- isinstance chain to the custom exception rules
      (h.custom_exception_rules.lookup typeName).getD false
  | .otherExc typeName =>
      (h.custom_exception_rules.lookup typeName).getD false

/-- Embeds `RetryHandler._should_retry_on_exception` (`retry_handler.py:118-158`):
returns `False` outright once `attempt >= self.max_retries`, otherwise
decides by exception class. -/
def RetryHandler.should_retry_on_exception (h : RetryHandler) (e : PyExc)
    (attempt : Nat) : Bool :=
  if h.max_retries ≤ attempt then false else h.retryDecision e

/-- The `for attempt in range(self.max_retries + 1)` loop of
`RetryHandler.execute_with_retry` (`retry_handler.py:57-116`).  The operation
is a function from the zero-based call index to its outcome; the list holds
the remaining attempt indices and the `Option PyExc` is `last_exception`.
`_should_retry_based_on_result` always returns `False` in the source, so a
successful call returns immediately.  On an exception the source either
re-raises (`raise`) when `_should_retry_on_exception` is false or continues
the loop (after a sleep when attempts remain); falling off the loop end
re-raises `last_exception` (`raise None` would be a `TypeError`, modelled by
`otherExc "TypeError"`; unreachable because the guard in
`_should_retry_on_exception` re-raises at the final attempt).  The returned
`Nat` counts how many times the operation was invoked. -/
def RetryHandler.retryGo (h : RetryHandler) (op : Nat → Except PyExc α) :
    List Nat → Option PyExc → Except PyExc α × Nat
  | [], some e => (.error e, 0)
  | [], none => (.error (.otherExc "TypeError"), 0)
  | a :: rest, _ =>
      match op a with
      | .ok v => (.ok v, 1)
      | .error e =>
          if h.should_retry_on_exception e a then
            let r := h.retryGo op rest (some e)
            (r.1, r.2 + 1)
          else (.error e, 1)

/-- Embeds `RetryHandler.execute_with_retry` (`retry_handler.py:57-116`): the result
of running the retry loop over attempts `0 .. max_retries`. -/
def RetryHandler.execute_with_retry (h : RetryHandler)
    (op : Nat → Except PyExc α) : Except PyExc α :=
  (h.retryGo op (List.range (h.max_retries + 1)) none).1

/-- The number of times `execute_with_retry` invokes the operation. -/
def RetryHandler.invocationCount (h : RetryHandler)
    (op : Nat → Except PyExc α) : Nat :=
  (h.retryGo op (List.range (h.max_retries + 1)) none).2

/-- Embeds `RetryHandler._calculate_delay` (`retry_handler.py:166-178`).  `x` is the
value drawn by `random.random()` (so `random.uniform(a, b) = a + (b-a)*x`
with `0 ≤ x ≤ 1`).  Note the order in the source: exponential backoff, then
jitter, then the clamp to `max_delay`. -/
def RetryHandler.calculate_delay (h : RetryHandler) (attempt : Nat) (x : ℚ) :
    ℚ :=
  let delay := h.base_delay * h.exponential_base ^ attempt
  let delay :=
    if h.jitter then delay * (1/2) + (delay * (3/2) - delay * (1/2)) * x
    else delay
  min delay h.max_delay

/-- The backoff formula as the specification words it ("delay =
min(base_delay × exponential_base^attempt, max_delay); if jitter enabled,
final delay = uniform(delay×0.5, delay×1.5)"): the clamp to `max_delay` is
applied before the jitter is drawn.  Stated from the spec only, for
comparison with `RetryHandler.calculate_delay`. -/
def RetryHandler.spec_calculate_delay (h : RetryHandler) (attempt : Nat)
    (x : ℚ) : ℚ :=
  let d := min (h.base_delay * h.exponential_base ^ attempt) h.max_delay
  if h.jitter then d * (1/2) + (d * (3/2) - d * (1/2)) * x else d

/-- Mutable state of `AdaptiveRetryHandler` (`retry_handler.py:243-257`):
the inherited static configuration plus the rolling counters and the
adaptive parameters initialised from the static ones. -/
structure AdaptiveState where
  handler : RetryHandler
  success_count : Nat := 0
  failure_count : Nat := 0
  request_count : Nat := 0
  adaptive_base_delay : ℚ
  adaptive_max_retries : Nat
  success_rate_threshold : ℚ := 8/10
deriving Repr

/-- Embeds `AdaptiveRetryHandler.__init__` field initialisation. -/
def AdaptiveState.init (h : RetryHandler) : AdaptiveState :=
  { handler := h
    adaptive_base_delay := h.base_delay
    adaptive_max_retries := h.max_retries }

/-- Embeds `AdaptiveRetryHandler._adapt_strategy` (`retry_handler.py:278-298`).
Both adaptation branches recompute the adaptive values from the static
`self.max_retries` / `self.base_delay` attributes, exactly as the source
does. -/
def AdaptiveState.adapt_strategy (s : AdaptiveState) : AdaptiveState :=
  if s.request_count < 10 then s
  else
    let success_rate : ℚ := (s.success_count : ℚ) / (s.request_count : ℚ)
    if success_rate < s.success_rate_threshold then
      { s with
        adaptive_max_retries := min (s.handler.max_retries + 2) 10
        adaptive_base_delay := min (s.handler.base_delay * (3/2)) 10 }
    else
      { s with
        adaptive_max_retries := max (s.handler.max_retries - 1) 1
        adaptive_base_delay := max (s.handler.base_delay * (8/10)) (1/2) }

/-- Embeds `AdaptiveRetryHandler.execute_with_retry` (`retry_handler.py:258-276`):
bumps `request_count`, delegates to `super().execute_with_retry` — which
reads the static `self.max_retries`, not `self.adaptive_max_retries` —
then bumps the success or failure counter and adapts.  Returns the
delegated result, the number of operation invocations, and the new state. -/
def AdaptiveState.execute_with_retry (s : AdaptiveState)
    (op : Nat → Except PyExc α) : (Except PyExc α × Nat) × AdaptiveState :=
  let s1 := { s with request_count := s.request_count + 1 }
  let r := s.handler.retryGo op (List.range (s.handler.max_retries + 1)) none
  match r.1 with
  | .ok v =>
      ((.ok v, r.2),
        ({ s1 with success_count := s1.success_count + 1 }).adapt_strategy)
  | .error e =>
      ((.error e, r.2),
        ({ s1 with failure_count := s1.failure_count + 1 }).adapt_strategy)

/-- Runs `n` adaptive calls in sequence, feeding each call the same
operation behaviour, and returns the final state. -/
def AdaptiveState.iterate (op : Nat → Except PyExc α) :
    Nat → AdaptiveState → AdaptiveState
  | 0, s => s
  | n + 1, s => AdaptiveState.iterate op n (s.execute_with_retry op).2

/-- The three circuit-breaker states, the strings `"closed"`, `"open"`,
`"half-open"` of the source. -/
inductive CBState where
  | closed
  | open'
  | halfOpen
deriving DecidableEq, Repr

/-- Embeds `CircuitBreaker` (`retry_handler.py:181-240`).  Time is modelled in whole
seconds: `last_failure_time` is an absolute timestamp and the current time is
passed to each call. -/
structure CircuitBreaker where
  failure_threshold : Nat := 5
  recovery_timeout : Nat := 60
  failure_count : Nat := 0
  last_failure_time : Option Nat := none
  state : CBState := .closed
deriving DecidableEq, Repr

/-- Embeds `CircuitBreaker._should_attempt_reset` (`retry_handler.py:221-226`).
The source computes `(datetime.now() - self.last_failure_time).seconds`,
the `seconds` component of the `timedelta` — i.e. the elapsed whole seconds
modulo 86400 (one day), not `total_seconds()`.  `now ≥ t` is assumed (time
moves forward). -/
def CircuitBreaker.should_attempt_reset (cb : CircuitBreaker) (now : Nat) :
    Bool :=
  match cb.last_failure_time with
  | none => false
  | some t => cb.recovery_timeout ≤ (now - t) % 86400

/-- Embeds `CircuitBreaker._on_success` (`retry_handler.py:228-231`). -/
def CircuitBreaker.on_success (cb : CircuitBreaker) : CircuitBreaker :=
  { cb with failure_count := 0, state := .closed }

/-- Embeds `CircuitBreaker._on_failure` (`retry_handler.py:233-239`). -/
def CircuitBreaker.on_failure (cb : CircuitBreaker) (now : Nat) :
    CircuitBreaker :=
  let cb := { cb with
    failure_count := cb.failure_count + 1
    last_failure_time := some now }
  if cb.failure_threshold ≤ cb.failure_count then
    { cb with state := .open' }
  else cb

/-- Outcome of `CircuitBreaker.call`: either the synthetic
`Exception("Circuit breaker is open")` raised without invoking the wrapped
function, or the wrapped function's own exception re-raised. -/
inductive CBError where
  | breakerOpen
  | fnExc (e : PyExc)
deriving DecidableEq, Repr

/-- Embeds `CircuitBreaker.call` (`retry_handler.py:206-219`).  The wrapped
function's behaviour is passed as its outcome `f`; the default
`expected_exception = Exception` catches every modelled exception.  Returns
the call result, the new breaker state, and whether the wrapped function was
invoked. -/
def CircuitBreaker.call (cb : CircuitBreaker) (now : Nat)
    (f : Except PyExc α) : Except CBError α × CircuitBreaker × Bool :=
  let runFn := fun (cb' : CircuitBreaker) =>
    match f with
    | .ok v => (Except.ok v, cb'.on_success, true)
    | .error e => (Except.error (CBError.fnExc e), cb'.on_failure now, true)
  if cb.state = .open' then
    if cb.should_attempt_reset now then runFn { cb with state := .halfOpen }
    else (.error .breakerOpen, cb, false)
  else runFn cb

/-- Embeds `CrawlerEngine._run_crawler`'s `finally` block (`crawler.py:151-160`):
`if task_id in self.active_tasks: del self.active_tasks[task_id]`.  The
active-task registry is modelled by its key list. -/
def run_crawler_cleanup (active : List String) (task_id : String) :
    List String :=
  if task_id ∈ active then active.erase task_id else active

/-- Embeds `CrawlerEngine.stop_task` (`crawler.py:37-52`) called on a task whose
execution unit has started running.  Per asyncio semantics, `await task`
after `task.cancel()` resumes only after the cancelled coroutine has
finished unwinding — its `finally` block (`run_crawler_cleanup`) runs first,
and the `except asyncio.CancelledError: pass` swallows the cancellation —
after which `stop_task` executes the unguarded
`del self.active_tasks[task_id]`; a `del` on a missing key raises
`KeyError`.  Returns the boolean result and the new registry, or the raised
exception. -/
def stop_task_started (active : List String) (task_id : String) :
    Except PyExc (Bool × List String) :=
  if task_id ∈ active then
    let a1 := run_crawler_cleanup active task_id
    if task_id ∈ a1 then .ok (true, a1.erase task_id)
    else .error (.otherExc "KeyError")
  else .ok (false, active)

/-- Embeds `TaskStatus` of the scheduler (`smart_spider/scheduler/task_scheduler.py:15-21`). -/
inductive SchedTaskStatus where
  | pending
  | running
  | completed
  | failed
  | cancelled
deriving DecidableEq, Repr

/-- The fields of `ScheduledTask` (`task_scheduler.py:24-39`) that
`_should_run_task` reads.  Timestamps are rationals (seconds);
`interval_seconds` models `schedule_config["interval_seconds"]`. -/
structure ScheduledTask where
  task_id : String
  schedule_type : String
  status : SchedTaskStatus := .pending
  last_run : Option ℚ := none
  next_run : Option ℚ := none
  interval_seconds : ℚ := 0
deriving DecidableEq, Repr

/-- Embeds `TaskScheduler._should_run_task` (`task_scheduler.py:160-179`),
translated branch for branch; `current_time` is `datetime.now()`.  In the
`one_time` branch the Python expression
`task.next_run and current_time >= task.next_run` is falsy when `next_run`
is `None`. -/
def should_run_task (task : ScheduledTask) (current_time : ℚ) : Bool :=
  if task.status ≠ SchedTaskStatus.pending then false
  else if task.schedule_type = "one_time" then
    match task.next_run with
    | none => false
    | some nr => nr ≤ current_time
  else if task.schedule_type = "interval" then
    match task.last_run with
    | none => true
    | some lr => lr + task.interval_seconds ≤ current_time
  else if task.schedule_type = "cron" then
    match task.last_run with
    | none => true
    | some _ => false
  else false

/-- Embeds `PriorityItem` (`smart_spider/core/priority_queue.py:21-35`): priority
rank (`Priority.value`, an `int`), enqueue timestamp
(`datetime.now().timestamp()`, a float, modelled over `ℚ`), item id, payload
and metadata. -/
structure PriorityItem where
  priority : Int
  timestamp : ℚ
  item_id : String
  data : String
  metadata : List (String × String) := []
deriving DecidableEq, Repr

/-- Embeds `PriorityItem.__lt__` (`priority_queue.py:30-35`): smaller priority value
first; on equal priority, smaller (earlier) timestamp first. -/
def PriorityItem.lt (a b : PriorityItem) : Bool :=
  if a.priority ≠ b.priority then a.priority < b.priority
  else a.timestamp < b.timestamp

/-- The first `PriorityItem.lt`-minimal element of `m :: xs` (earlier
position wins ties). -/
def findMin : PriorityItem → List PriorityItem → PriorityItem
  | m, [] => m
  | m, x :: xs => findMin (if PriorityItem.lt x m then x else m) xs

/-- Embeds `heapq.heappop` on the `_queue` list, modelled from the Python stdlib
heapq contract: pop and return the smallest item of the heap under the
element type's `__lt__` (here `PriorityItem.lt`); among `lt`-equivalent
items the choice is unspecified, modelled as the first minimal element.
This is the core of `PriorityQueue.get` (`priority_queue.py:90-116`), which
pops one item under the instance lock. -/
def heappop (l : List PriorityItem) :
    Option (PriorityItem × List PriorityItem) :=
  match l with
  | [] => none
  | x :: xs =>
      let m := findMin x xs
      some (m, (x :: xs).erase m)

/-- Repeatedly `get` (pop) until the queue is empty; fuel-indexed to make
the recursion structural, with `l.length` fuel draining everything. -/
def drainFuel : Nat → List PriorityItem → List PriorityItem
  | 0, _ => []
  | n + 1, l =>
      match heappop l with
      | none => []
      | some (m, rest) => m :: drainFuel n rest

/-- The full dequeue order of a queue state: the sequence of items returned
by successive `PriorityQueue.get` calls until empty. -/
def drainQueue (l : List PriorityItem) : List PriorityItem :=
  drainFuel l.length l

/-- A DOM node as the parser uses it: its trimmed text content
(`get_text(strip=True)`) and its attribute map (`elem.get(name)`). -/
structure DomElem where
  text : String
  attrs : List (String × String) := []
deriving DecidableEq, Repr

/-- The document/selection engine behind `_parse_by_css` and
`_parse_by_xpath` (BeautifulSoup + soupsieve, lxml), passed as an
environment.  `docOk` / `docOkX` model whether `BeautifulSoup(...)` /
`html.fromstring(...)` succeed on the page; `select sel = none` models
`soup.select(sel)` raising (e.g. soupsieve rejecting an invalid selector
such as an unknown `::attr(...)` pseudo-class); `xpath p = none` models
`tree.xpath(p)` raising; `xpath p = some vs` gives the matched results
already stringified as `str(elem)`. -/
structure SoupEnv where
  docOk : Bool := true
  docOkX : Bool := true
  select : String → Option (List DomElem) := fun _ => some []
  xpath : String → Option (List String) := fun _ => some []

/-- A parsed field value: Python `None`, a single value, or a list of
values. -/
inductive FieldVal where
  | null
  | single (s : String)
  | many (l : List String)
deriving DecidableEq, Repr

/-- Embeds `values if len(values) > 1 else values[0] if values else None`
(`smart_spider/engine/parser.py:44,50,54`). -/
def collapseValues (values : List String) : FieldVal :=
  match values with
  | [] => .null
  | [v] => .single v
  | vs => .many vs

/-- Embeds `ParseConfig` (`smart_spider/config/crawler_config.py:56-71`): the
fields the parser reads.  `rules` keeps the dict's insertion order. -/
structure ParseConfig where
  rules : List (String × String) := []
  selector_type : String := "css"
  clean_whitespace : Bool := true
  clean_html : Bool := true
deriving Repr

/-- Embeds `re.sub(r'\s+', ' ', s).strip()` (`parser.py:59-61`): collapse every
whitespace run to one space, then trim. -/
def collapseWhitespace (s : String) : String :=
  let folded := s.data.foldr
    (fun c acc =>
      if c.isWhitespace then
        match acc with
        | ' ' :: _ => acc
        | _ => ' ' :: acc
      else c :: acc) []
  String.mk (folded.dropWhile (· = ' ') |>.reverse
    |>.dropWhile (· = ' ') |>.reverse)

/-- Embeds `Parser._clean_html_tags` (`parser.py:129-132`): `re.sub('<.*?>', '', s)`
— drop every non-greedy `<...>` span; `.` does not match a newline, so a
`<` with no `>` before the next newline is kept. -/
def cleanHtmlGo : Nat → List Char → List Char
  | _, [] => []
  | 0, l => l
  | fuel + 1, '<' :: rest =>
      let inTag := rest.takeWhile (fun c => c ≠ '>' ∧ c ≠ '\n')
      let after := rest.drop inTag.length
      match after with
      | '>' :: rest' => cleanHtmlGo fuel rest'
      | _ => '<' :: cleanHtmlGo fuel rest
  | fuel + 1, c :: rest => c :: cleanHtmlGo fuel rest

/-- See `cleanHtmlGo`; the fuel `s.length` bounds the character count, and
each step consumes at least one character. -/
def clean_html_tags (s : String) : String :=
  String.mk (cleanHtmlGo s.length s.data)

/-- The two cleaning passes applied to a just-extracted field value
(`parser.py:56-67`): each pass is guarded by its config flag AND the
truthiness of the current value (`None`, `""` and `[]` are falsy), and the
HTML pass re-checks truthiness after the whitespace pass. -/
def cleanFieldValue (cfg : ParseConfig) (v : FieldVal) : FieldVal :=
  let truthy : FieldVal → Bool
    | .null => false
    | .single s => s ≠ ""
    | .many l => l ≠ []
  let v1 :=
    if cfg.clean_whitespace ∧ truthy v then
      match v with
      | .null => v
      | .single s => .single (collapseWhitespace s)
      | .many l => .many (l.map collapseWhitespace)
    else v
  if cfg.clean_html ∧ truthy v1 then
    match v1 with
    | .null => v1
    | .single s => .single (clean_html_tags s)
    | .many l => .many (l.map clean_html_tags)
  else v1

/-- Embeds Python `str.rstrip(c)` over character lists. -/
def rstripChar (c : Char) (l : List Char) : List Char :=
  (l.reverse.dropWhile (· = c)).reverse

/-- Embeds `str.split(pat)` for a non-empty multi-character separator, over
character lists; the fuel (the haystack length) bounds the recursion, and
each step consumes at least one character. -/
def splitOnSeqFuel (pat : List Char) : Nat → List Char → List (List Char)
  | _, [] => [[]]
  | 0, s => [s]
  | fuel + 1, c :: rest =>
      if pat ≠ [] ∧ pat.isPrefixOf (c :: rest) then
        [] :: splitOnSeqFuel pat fuel ((c :: rest).drop pat.length)
      else
        match splitOnSeqFuel pat fuel rest with
        | [] => [[c]]
        | p :: ps => (c :: p) :: ps

/-- Embeds `str.split(pat)`: see `splitOnSeqFuel`. -/
def splitOnSeq (pat s : List Char) : List (List Char) :=
  splitOnSeqFuel pat s.length s

/-- One field rule of `Parser._parse_by_css` (`parser.py:38-54`), before the
cleaning passes.  The branch on the selector string is the source's:
`endswith('::text')`, then `endswith('::attr()')` — the literal 8-character
string with empty parentheses — else the raw selector is handed to
`soup.select` unchanged.  In the `::attr()` branch the attribute name is
`selector.split('::attr(')[1].rstrip(')')` and falsy (missing or empty)
attribute values are filtered out.  A raised exception (`none` from the
environment) is caught by the per-field `except`, yielding `None`.
String manipulation is carried out on the underlying character lists. -/
def parse_field_css (env : SoupEnv) (selector : String) : FieldVal :=
  let sel := selector.data
  let raw : Option (List String) :=
    if "::text".data.isSuffixOf sel then
      (env.select (String.mk (sel.take (sel.length - 6)))).map
        (·.map DomElem.text)
    else if "::attr()".data.isSuffixOf sel then
      let css_selector := String.mk (sel.take (sel.length - 8))
      let attr_name := String.mk
        (rstripChar ')' ((splitOnSeq "::attr(".data sel).getD 1 []))
      (env.select css_selector).map
        (·.filterMap (fun el =>
          match el.attrs.lookup attr_name with
          | some v => if v = "" then none else some v
          | none => none))
    else
      (env.select selector).map (·.map DomElem.text)
  match raw with
  | none => .null
  | some values => collapseValues values

/-- Python dict assignment `data[field] = v`: replace in place when the key
exists, else append. -/
def dictInsert (d : List (String × FieldVal)) (k : String) (v : FieldVal) :
    List (String × FieldVal) :=
  if d.any (·.1 = k) then d.map (fun p => if p.1 = k then (k, v) else p)
  else d ++ [(k, v)]

/-- Embeds `Parser._parse_by_css` (`parser.py:25-78`): empty list when the
top-level parse raises or no rules are configured; otherwise one record
`{'url': url, field: value, ...}` for the whole page. -/
def parse_by_css (env : SoupEnv) (cfg : ParseConfig) (url : String) :
    List (List (String × FieldVal)) :=
  if env.docOk = false then []
  else if cfg.rules = [] then []
  else
    [cfg.rules.foldl
      (fun d fs =>
        dictInsert d fs.1 (cleanFieldValue cfg (parse_field_css env fs.2)))
      [("url", FieldVal.single url)]]

/-- One field rule of `Parser._parse_by_xpath` (`parser.py:93-103`):
`tree.xpath(xpath)` results stringified and stripped; the environment
already returns `str(elem)`, stripping is modelled by `collapseWhitespace`
only via the cleaning passes, while the source's `.strip()` here is the
plain trim. -/
def trimAscii (s : String) : String :=
  String.mk (s.data.dropWhile Char.isWhitespace |>.reverse
    |>.dropWhile Char.isWhitespace |>.reverse)

/-- The raw extraction of one xpath field (`parser.py:95-103`). -/
def parse_field_xpath (env : SoupEnv) (xp : String) : FieldVal :=
  match env.xpath xp with
  | none => .null
  | some elements =>
      match elements with
      | [] => .null
      | [e] => .single (trimAscii e)
      | es => .many (es.map trimAscii)

/-- Embeds `Parser._parse_by_xpath` (`parser.py:80-127`): same shape as the CSS
path. -/
def parse_by_xpath (env : SoupEnv) (cfg : ParseConfig) (url : String) :
    List (List (String × FieldVal)) :=
  if env.docOkX = false then []
  else if cfg.rules = [] then []
  else
    [cfg.rules.foldl
      (fun d fs =>
        dictInsert d fs.1 (cleanFieldValue cfg (parse_field_xpath env fs.2)))
      [("url", FieldVal.single url)]]

/-- Embeds `Parser.parse_html` (`parser.py:16-23`): dispatch on
`selector_type.lower()`, raising `ValueError` for an unsupported type. -/
def parse_html (env : SoupEnv) (cfg : ParseConfig) (url : String) :
    Except PyExc (List (List (String × FieldVal))) :=
  if cfg.selector_type.data.map Char.toLower = "css".data then
    .ok (parse_by_css env cfg url)
  else if cfg.selector_type.data.map Char.toLower = "xpath".data then
    .ok (parse_by_xpath env cfg url)
  else .error (.otherExc "ValueError")

/-- Split a character list at the first occurrence of `c`
(`str.split(c, 1)` when `c` occurs); `none` when `c` is absent. -/
def splitFirstChar (c : Char) : List Char → Option (List Char × List Char)
  | [] => none
  | x :: xs =>
      if x = c then some ([], xs)
      else (splitFirstChar c xs).map (fun p => (x :: p.1, p.2))

/-- Embeds `str.split(c)`: split at every occurrence of `c`; never returns `[]`. -/
def splitAllChar (c : Char) : List Char → List (List Char)
  | [] => [[]]
  | x :: xs =>
      match splitAllChar c xs with
      | [] => [[]]
      | p :: ps => if x = c then [] :: p :: ps else (x :: p) :: ps

/-- Join with a single separator character (inverse of `splitAllChar`). -/
def joinChar (c : Char) : List (List Char) → List Char
  | [] => []
  | [p] => p
  | p :: ps => p ++ c :: joinChar c ps

/-- Join with a multi-character separator (`sep.join(parts)`). -/
def joinSeq (sep : List Char) : List (List Char) → List Char
  | [] => []
  | [p] => p
  | p :: ps => p ++ sep ++ joinSeq sep ps

/-- The components of `urllib.parse.urlparse` the fingerprinter reads. -/
structure UrlParts where
  scheme : List Char
  netloc : List Char
  path : List Char
  query : List Char
deriving DecidableEq, Repr

/-- Embeds `urllib.parse.urlparse`, modelled for URLs without fragments or
percent-escapes: the query follows the first `?`; a `scheme://` prefix
splits at the first `:` followed by `//`; the netloc extends to the next
`/`.  (Modelled from the Python stdlib; faithful on the
`scheme://host[/path][?query]` shapes the crawler handles.) -/
def urlparseM (url : List Char) : UrlParts :=
  let rq := match splitFirstChar '?' url with
    | none => (url, ([] : List Char))
    | some p => p
  match splitFirstChar ':' rq.1 with
  | some (scheme, afterColon) =>
      match afterColon with
      | '/' :: '/' :: hostPath =>
          match splitFirstChar '/' hostPath with
          | some (netloc, p) => ⟨scheme, netloc, '/' :: p, rq.2⟩
          | none => ⟨scheme, hostPath, [], rq.2⟩
      | rest => ⟨scheme, [], rest, rq.2⟩
  | none => ⟨[], [], rq.1, rq.2⟩

/-- Embeds `urllib.parse.parse_qsl` with the default arguments: split the query on
`&`, skip empty chunks, skip chunks without `=`, and (since
`keep_blank_values=False`) skip pairs whose value is empty.  Modelled for
queries without percent-escapes or `+`, where unquoting is the identity. -/
def parse_qsl (q : List Char) : List (List Char × List Char) :=
  (splitAllChar '&' q).filterMap fun p =>
    if p = [] then none
    else
      match splitFirstChar '=' p with
      | none => none
      | some (k, v) => if v = [] then none else some (k, v)

/-- One step of dict-grouping for `parse_qs`: append the value to an
existing key's list (keeping the key's first-occurrence position) or append
a new key. -/
def qsInsert (acc : List (List Char × List (List Char)))
    (kv : List Char × List Char) : List (List Char × List (List Char)) :=
  if acc.any (·.1 = kv.1) then
    acc.map (fun g => if g.1 = kv.1 then (g.1, g.2 ++ [kv.2]) else g)
  else acc ++ [(kv.1, [kv.2])]

/-- Embeds `urllib.parse.parse_qs`: pair list grouped into an ordered dict from
key to list of values. -/
def parse_qs (q : List Char) : List (List Char × List (List Char)) :=
  (parse_qsl q).foldl qsInsert []

/-- Python string `<` : code-point lexicographic order. -/
def lexLt : List Char → List Char → Bool
  | [], [] => false
  | [], _ :: _ => true
  | _ :: _, [] => false
  | x :: xs, y :: ys =>
      if x < y then true else if y < x then false else lexLt xs ys

/-- Insert into a key-sorted association list (ascending `lexLt` on keys). -/
def insertByKey (x : List Char × β) :
    List (List Char × β) → List (List Char × β)
  | [] => [x]
  | y :: ys =>
      if lexLt y.1 x.1 then y :: insertByKey x ys else x :: y :: ys

/-- Embeds `sorted(items)` / `dict(sorted(d.items()))`: sort an association list
by key.  (The Python tuple comparison would compare values on equal keys;
every use here sorts a dict's items, whose keys are distinct.) -/
def sortByKey (l : List (List Char × β)) : List (List Char × β) :=
  l.foldr insertByKey []

/-- Embeds `urllib.parse.urlencode(d, doseq=True)` for string values without
reserved characters (quoting is the identity): one `k=v` chunk per value,
keys in dict order, joined with `&`. -/
def urlencodePairs (l : List (List Char × List (List Char))) : List Char :=
  joinChar '&'
    (l.foldr (fun g acc => g.2.map (fun v => g.1 ++ '=' :: v) ++ acc) [])

/-- Embeds `RequestFingerprinter.__init__`
(`smart_spider/core/request_fingerprint.py:13-33`) with its default
values. -/
structure RequestFingerprinter where
  include_url : Bool := true
  include_method : Bool := true
  include_headers : Bool := false
  include_data : Bool := true
  ignore_params : List String := []
  ignore_headers : List String :=
    ["User-Agent", "Accept", "Accept-Language", "Accept-Encoding",
     "Connection", "Upgrade-Insecure-Requests", "Cache-Control",
     "Sec-Fetch-Dest", "Sec-Fetch-Mode", "Sec-Fetch-Site"]
  sort_parameters : Bool := true

/-- Embeds `RequestFingerprinter._normalize_url`
(`request_fingerprint.py:82-118`): lower-case the netloc, default the empty
path to `/`, parse the query, pop every ignored parameter, sort the
parameter dict when `sort_parameters`, re-encode, and rebuild (the query is
appended only when non-empty). -/
def RequestFingerprinter.normalize_url (fp : RequestFingerprinter)
    (url : List Char) : List Char :=
  let u := urlparseM url
  let netloc := u.netloc.map Char.toLower
  let path := if u.path = [] then ['/'] else u.path
  let ignoreKeys := fp.ignore_params.map String.data
  let qp := (parse_qs u.query).filter (fun g => ¬ g.1 ∈ ignoreKeys)
  let qp := if fp.sort_parameters then sortByKey qp else qp
  let query := urlencodePairs qp
  let base := u.scheme ++ ':' :: '/' :: '/' :: netloc ++ path
  if query = [] then base else base ++ '?' :: query

/-- Embeds `json.dumps` of a string-to-string dict given as an ordered association
list, with the default separators: `{"k": "v", ...}` (values without
characters needing JSON escaping). -/
def jsonDumpPairs (l : List (List Char × List Char)) : List Char :=
  let items := l.map (fun kv =>
    '"' :: kv.1 ++ '"' :: ':' :: ' ' :: '"' :: kv.2 ++ ['"'])
  '\x7b' :: (joinSeq [',', ' '] items ++ ['\x7d'])

/-- Python dict construction from a pair list: a repeated key keeps its
first position and takes the last value. -/
def dictOfPairs (l : List (List Char × List Char)) :
    List (List Char × List Char) :=
  l.foldl
    (fun acc kv =>
      if acc.any (·.1 = kv.1) then
        acc.map (fun g => if g.1 = kv.1 then (g.1, kv.2) else g)
      else acc ++ [kv]) []

/-- Embeds `RequestFingerprinter._normalize_data`
(`request_fingerprint.py:120-135`): drop ignored keys, sort when
`sort_parameters`, then `json.dumps(..., sort_keys=True)` (which sorts by
key again). -/
def RequestFingerprinter.normalize_data (fp : RequestFingerprinter)
    (data : List (String × String)) : List Char :=
  let d := data.map (fun kv => (kv.1.data, kv.2.data))
  let filtered :=
    d.filter (fun kv => ¬ kv.1 ∈ fp.ignore_params.map String.data)
  let filtered := if fp.sort_parameters then sortByKey filtered else filtered
  jsonDumpPairs (sortByKey filtered)

/-- Embeds `RequestFingerprinter._normalize_headers`
(`request_fingerprint.py:137-154`): lower-case the names, drop those in the
(lower-cased) ignore list, build the dict, sort, and
`json.dumps(..., sort_keys=True)`. -/
def RequestFingerprinter.normalize_headers (fp : RequestFingerprinter)
    (headers : List (String × String)) : List Char :=
  let lowered := headers.map (fun kv => (kv.1.data.map Char.toLower, kv.2.data))
  let ignored := fp.ignore_headers.map (fun s => s.data.map Char.toLower)
  let filtered := lowered.filter (fun kv => ¬ kv.1 ∈ ignored)
  jsonDumpPairs (sortByKey (dictOfPairs filtered))

/-- Embeds `RequestFingerprinter.generate_fingerprint`
(`request_fingerprint.py:35-80`) up to the final
`hashlib.md5(fingerprint_string.encode()).hexdigest()`: the source hashes
the pipe-joined parts, and since MD5 is a function of that string, equality
of fingerprints in the source is equality of these pre-hash strings — the
theorems below are stated about the pre-hash string.  `data`/`headers`
given as `[]` model the `None`/empty (falsy) defaults. -/
def RequestFingerprinter.generate_fingerprint (fp : RequestFingerprinter)
    (url method : String) (headers data : List (String × String)) :
    String :=
  let parts : List (List Char) :=
    (if fp.include_method then ["METHOD:".data ++ method.data.map Char.toUpper]
     else [])
    ++ (if fp.include_url then ["URL:".data ++ fp.normalize_url url.data]
        else [])
    ++ (if fp.include_data ∧ data ≠ [] then
          let nd := fp.normalize_data data
          if nd = [] then [] else ["DATA:".data ++ nd]
        else [])
    ++ (if fp.include_headers ∧ headers ≠ [] then
          let nh := fp.normalize_headers headers
          if nh = [] then [] else ["HEADERS:".data ++ nh]
        else [])
  String.mk (joinSeq ['|'] parts)

/-- Assembles a raw query string from a list of `name=value` pairs (the
inverse direction of `parse_qsl`, used to state query-reordering
properties). -/
def buildQuery (l : List (List Char × List Char)) : List Char :=
  joinChar '&' (l.map fun kv => kv.1 ++ '=' :: kv.2)

/-- Assembles a `scheme://netloc path ?query` URL from its components, used
to state URL-normalization properties. -/
def mkUrl (scheme netloc path query : List Char) : List Char :=
  scheme ++ ':' :: '/' :: '/' :: netloc ++ path ++ '?' :: query

/-- Well-formedness of one query pair for the round-trip through
`buildQuery`/`parse_qsl`: non-empty name and value, neither containing a
query delimiter. -/
def goodPair (kv : List Char × List Char) : Prop :=
  kv.1 ≠ [] ∧ kv.2 ≠ [] ∧ '&' ∉ kv.1 ∧ '=' ∉ kv.1 ∧ '?' ∉ kv.1 ∧
    '&' ∉ kv.2 ∧ '=' ∉ kv.2 ∧ '?' ∉ kv.2

instance (kv : List Char × List Char) : Decidable (goodPair kv) := by
  unfold goodPair
  infer_instance

theorem retryGo_count_le (h : RetryHandler) (op : Nat → Except PyExc α) :
    ∀ (l : List Nat) (last? : Option PyExc),
      (h.retryGo op l last?).2 ≤ l.length := by
  intro l
  induction l with
  | nil => intro last?; cases last? <;> simp [RetryHandler.retryGo]
  | cons a rest ih =>
      intro last?
      simp only [RetryHandler.retryGo]
      cases op a with
      | ok v => simp
      | error e =>
          by_cases hr : h.should_retry_on_exception e a
          · simpa [hr] using Nat.succ_le_succ (ih (some e))
          · simp [hr]

theorem retryGo_succeeds (h : RetryHandler) (op : Nat → Except PyExc α)
    (E : Nat → PyExc) (N : Nat) (v : α)
    (hfail : ∀ i, i < N → op i = Except.error (E i))
    (hretry : ∀ i, i < N → h.retryDecision (E i) = true)
    (hok : op N = Except.ok v) (hN : N ≤ h.max_retries) :
    ∀ (n s : Nat) (last? : Option PyExc), s + n = h.max_retries + 1 →
      s ≤ N →
      h.retryGo op (List.range' s n) last? = (Except.ok v, N - s + 1) := by
  intro n
  induction n with
  | zero => intro s last? hsum hs; omega
  | succ n ih =>
      intro s last? hsum hs
      rw [List.range'_succ]
      by_cases hsN : s = N
      · subst hsN
        simp [RetryHandler.retryGo, hok]
      · have hlt : s < N := lt_of_le_of_ne hs hsN
        have hre : h.should_retry_on_exception (E s) s = true := by
          have : ¬ h.max_retries ≤ s := by omega
          simp [RetryHandler.should_retry_on_exception, this, hretry s hlt]
        have hrec := ih (s + 1) (some (E s)) (by omega) (by omega)
        simp only [RetryHandler.retryGo, hfail s hlt, hre, if_true, hrec]
        have : N - (s + 1) + 1 + 1 = N - s + 1 := by omega
        simp [this]

theorem retryGo_exhausts (h : RetryHandler) (op : Nat → Except PyExc α)
    (E : Nat → PyExc) (N : Nat)
    (hfail : ∀ i, i < N → op i = Except.error (E i))
    (hretry : ∀ i, i < N → h.retryDecision (E i) = true)
    (hN : h.max_retries < N) :
    ∀ (n s : Nat) (last? : Option PyExc), s + n = h.max_retries + 1 →
      s ≤ h.max_retries →
      h.retryGo op (List.range' s n) last? =
        (Except.error (E h.max_retries), n) := by
  intro n
  induction n with
  | zero => intro s last? hsum hs; omega
  | succ n ih =>
      intro s last? hsum hs
      rw [List.range'_succ]
      have hsN : s < N := by omega
      by_cases hmax : s = h.max_retries
      · have hop := hfail s hsN
        rw [hmax] at hop
        have hre : h.should_retry_on_exception (E h.max_retries)
            h.max_retries = false := by
          simp [RetryHandler.should_retry_on_exception]
        have hn0 : n = 0 := by omega
        subst hn0
        simp [RetryHandler.retryGo, hmax, hop, hre]
      · have hre : h.should_retry_on_exception (E s) s = true := by
          have : ¬ h.max_retries ≤ s := by omega
          simp [RetryHandler.should_retry_on_exception, this, hretry s hsN]
        have hrec := ih (s + 1) (some (E s)) (by omega) (by omega)
        simp [RetryHandler.retryGo, hfail s hsN, hre, hrec]

/-- C1: `execute_with_retry` invokes the operation at most
`max_retries + 1` times for every operation; when the operation raises a
retryable exception on its first `N` calls and succeeds on call `N`
(zero-based), it returns the success value after exactly `N + 1`
invocations provided `max_retries ≥ N`, and when `max_retries < N` it
raises the exception of its last invocation — invocation number
`max_retries` — unchanged, after `max_retries + 1` invocations. -/
theorem execute_with_retry_contract (h : RetryHandler)
    (op : Nat → Except PyExc α) (E : Nat → PyExc) (N : Nat) (v : α)
    (hfail : ∀ i, i < N → op i = Except.error (E i))
    (hretry : ∀ i, i < N → h.retryDecision (E i) = true)
    (hok : op N = Except.ok v) :
    (∀ op' : Nat → Except PyExc α,
        h.invocationCount op' ≤ h.max_retries + 1) ∧
    (N ≤ h.max_retries →
      h.execute_with_retry op = Except.ok v ∧
      h.invocationCount op = N + 1) ∧
    (h.max_retries < N →
      h.execute_with_retry op = Except.error (E h.max_retries) ∧
      h.invocationCount op = h.max_retries + 1) := by
  refine ⟨fun op' => ?_, fun hle => ?_, fun hgt => ?_⟩
  · have := retryGo_count_le h op' (List.range (h.max_retries + 1)) none
    simpa [RetryHandler.invocationCount] using this
  · have := retryGo_succeeds h op E N v hfail hretry hok hle
      (h.max_retries + 1) 0 none (by omega) (by omega)
    rw [← List.range_eq_range' (h.max_retries + 1)] at this
    constructor
    · simp [RetryHandler.execute_with_retry, this]
    · simp [RetryHandler.invocationCount, this]
  · have := retryGo_exhausts h op E N hfail hretry hgt
      (h.max_retries + 1) 0 none (by omega) (by omega)
    rw [← List.range_eq_range' (h.max_retries + 1)] at this
    constructor
    · simp [RetryHandler.execute_with_retry, this]
    · simp [RetryHandler.invocationCount, this]

/-- Witness for C1: a handler with `max_retries = 2` and an operation that
fails once with a retryable `ServerException` then succeeds returns the
success value after exactly 2 invocations. -/
theorem execute_with_retry_contract_witness :
    ({ max_retries := 2 } : RetryHandler).execute_with_retry
        (fun i => if i < 1 then Except.error PyExc.serverExc
                  else Except.ok 42) = Except.ok 42 ∧
    ({ max_retries := 2 } : RetryHandler).invocationCount
        (fun i => if i < 1 then Except.error PyExc.serverExc
                  else Except.ok 42) = 2 := by
  have := (execute_with_retry_contract ({ max_retries := 2 } : RetryHandler)
    (fun i => if i < 1 then Except.error PyExc.serverExc else Except.ok 42)
    (fun _ => PyExc.serverExc) 1 42
    (fun i hi => by
      have hi0 : i = 0 := by omega
      subst hi0; simp)
    (fun i hi => rfl)
    (by simp)).2.1 (by decide)
  exact this

/-- C2: the adapted values do not govern subsequent calls.  With
`max_retries = 3`, after 10 completed calls that all fail (success rate 0 <
0.8) the adaptation is computed exactly as described — `adaptive_max_retries
= min(3+2,10) = 5`, `adaptive_base_delay = min(1×1.5,10) = 1.5` — yet the
11th `execute_with_retry` call still invokes the operation
`self.max_retries + 1 = 4` times, not the `adaptive_max_retries + 1 = 6`
the claim requires, because `super().execute_with_retry` reads the static
`self.max_retries`. -/
theorem adaptive_values_do_not_govern_calls :
    (AdaptiveState.iterate
        (fun _ => Except.error PyExc.serverExc : Nat → Except PyExc Nat) 10
        (AdaptiveState.init { max_retries := 3 })).request_count = 10 ∧
    (AdaptiveState.iterate
        (fun _ => Except.error PyExc.serverExc : Nat → Except PyExc Nat) 10
        (AdaptiveState.init { max_retries := 3 })).adaptive_max_retries
      = 5 ∧
    (AdaptiveState.iterate
        (fun _ => Except.error PyExc.serverExc : Nat → Except PyExc Nat) 10
        (AdaptiveState.init
          { max_retries := 3 })).adaptive_base_delay = 3/2 ∧
    ((AdaptiveState.iterate
        (fun _ => Except.error PyExc.serverExc : Nat → Except PyExc Nat) 10
        (AdaptiveState.init { max_retries := 3 })).execute_with_retry
        (fun _ => Except.error PyExc.serverExc : Nat → Except PyExc Nat)).1.2
      = 4 ∧
    (4 : Nat) ≠ 5 + 1 := by
  have hkey : ∀ h : RetryHandler,
      h.retryGo (fun _ => Except.error PyExc.serverExc : Nat → Except PyExc Nat)
        (List.range (h.max_retries + 1)) none
        = (Except.error PyExc.serverExc, h.max_retries + 1) := by
    intro h
    have := retryGo_exhausts h
      (fun _ => Except.error PyExc.serverExc : Nat → Except PyExc Nat)
      (fun _ => PyExc.serverExc) (h.max_retries + 1)
      (fun i _ => rfl) (fun i _ => rfl) (by omega)
      (h.max_retries + 1) 0 none (by omega) (by omega)
    rw [← List.range_eq_range' (h.max_retries + 1)] at this
    exact this
  have hstep : ∀ s : AdaptiveState,
      s.execute_with_retry
        (fun _ => Except.error PyExc.serverExc : Nat → Except PyExc Nat)
        = ((Except.error PyExc.serverExc, s.handler.max_retries + 1),
           ({ s with
               request_count := s.request_count + 1
               failure_count := s.failure_count + 1 }).adapt_strategy) := by
    intro s
    simp [AdaptiveState.execute_with_retry, hkey s.handler]
  norm_num [AdaptiveState.iterate, hstep, AdaptiveState.adapt_strategy,
    AdaptiveState.init]

/-- C3: the breaker compares `recovery_timeout` against the `seconds`
component of the elapsed `timedelta` (elapsed mod 86400), not the total
elapsed seconds.  With `failure_threshold = 1`, `recovery_timeout = 60`, a
failure at `t = 0` opens the breaker; at `t = 86405` — one day and five
seconds later, far beyond the 60-second recovery timeout — the call still
fails fast without invoking the wrapped function, because
`(86405 % 86400) = 5 < 60`. -/
theorem circuit_breaker_recovery_is_mod_one_day :
    (CircuitBreaker.call
        ({ failure_threshold := 1, recovery_timeout := 60 } : CircuitBreaker)
        0 (Except.error PyExc.serverExc : Except PyExc Nat)).2.1.state
      = CBState.open' ∧
    CircuitBreaker.last_failure_time
      (CircuitBreaker.call
        ({ failure_threshold := 1, recovery_timeout := 60 } : CircuitBreaker)
        0 (Except.error PyExc.serverExc : Except PyExc Nat)).2.1 = some 0 ∧
    60 ≤ 86405 - 0 ∧
    (CircuitBreaker.call
        ((CircuitBreaker.call
          ({ failure_threshold := 1, recovery_timeout := 60 } :
            CircuitBreaker)
          0 (Except.error PyExc.serverExc : Except PyExc Nat)).2.1)
        86405 (Except.ok (7 : Nat))).1 = Except.error CBError.breakerOpen ∧
    (CircuitBreaker.call
        ((CircuitBreaker.call
          ({ failure_threshold := 1, recovery_timeout := 60 } :
            CircuitBreaker)
          0 (Except.error PyExc.serverExc : Except PyExc Nat)).2.1)
        86405 (Except.ok (7 : Nat))).2.2 = false := by
  refine ⟨rfl, rfl, by norm_num, rfl, rfl⟩

/-- C4: the first `stop_task` on a started running task raises `KeyError`
instead of returning `True`: the cancelled coroutine's `finally` removes
the id from the registry during `await task`, and `stop_task`'s unguarded
`del` then misses.  A call on an id that is not registered returns
`False`. -/
theorem stop_task_first_call_raises_keyerror :
    stop_task_started ["t1"] "t1" = Except.error (PyExc.otherExc "KeyError") ∧
    stop_task_started [] "t1" = Except.ok (false, []) := by
  refine ⟨rfl, rfl⟩

/-- C7 counterexample: a freshly registered cron task (status `PENDING`,
`last_run = None`) IS deemed due by `_should_run_task`, so it fires on the
first scheduler check cycle — the claim says a cron task is never deemed
due. -/
theorem cron_task_fires_on_first_check :
    should_run_task { task_id := "c", schedule_type := "cron" } 0 = true := by
  decide

/-- C7 amended: a cron-triggered task is deemed due exactly once — on a
check where it is `PENDING` and has never run (`last_run` unset); once
`last_run` is set the check always returns not-due, so a cron task never
fires again no matter how many check cycles elapse. -/
theorem cron_task_due_iff_never_ran (task : ScheduledTask) (t : ℚ)
    (hc : task.schedule_type = "cron") :
    should_run_task task t =
      (decide (task.status = SchedTaskStatus.pending) &&
        task.last_run.isNone) := by
  obtain ⟨tid, stype, status, lr, nr, iv⟩ := task
  simp only at hc
  subst hc
  cases status <;> cases lr <;> simp [should_run_task]

/-- Witness for the amended C7 theorem: a pending cron task that has
already run once (`last_run = 5`) is not due at time 1000000. -/
theorem cron_task_due_iff_never_ran_witness :
    should_run_task
      { task_id := "c", schedule_type := "cron",
        last_run := some 5 } 1000000 = false := by
  have := cron_task_due_iff_never_ran
    { task_id := "c", schedule_type := "cron", last_run := some 5 }
    1000000 rfl
  simpa using this

/-- C8 counterexample: with `base_delay = 1`, `exponential_base = 2`,
`max_delay = 60`, `jitter` on, attempt 6 and the top jitter draw (`x = 1`,
i.e. `uniform` returning its upper bound), the source computes
`min(64 × 1.5, 60) = 60`, while the claim's formula — clamp before jitter —
yields `min(64, 60) × 1.5 = 90`. -/
theorem calculate_delay_clamp_order_counterexample :
    RetryHandler.calculate_delay
      { base_delay := 1, max_delay := 60, exponential_base := 2,
        jitter := true } 6 1 = 60 ∧
    RetryHandler.spec_calculate_delay
      { base_delay := 1, max_delay := 60, exponential_base := 2,
        jitter := true } 6 1 = 90 ∧
    (60 : ℚ) ≠ 90 := by
  norm_num [RetryHandler.calculate_delay, RetryHandler.spec_calculate_delay]

/-- C8 amended: with jitter disabled the delay is
`min(base_delay × exponential_base^attempt, max_delay)`; with jitter
enabled the delay is `min(r, max_delay)` where `r` is the uniform draw from
`[raw × 0.5, raw × 1.5]` around the **unclamped** exponential delay `raw` —
i.e. the clamp to `max_delay` is applied after the jitter, not before. -/
theorem calculate_delay_amended (h : RetryHandler) (attempt : Nat) (x : ℚ)
    (hx0 : 0 ≤ x) (hx1 : x ≤ 1) (hb : 0 ≤ h.base_delay)
    (he : 0 ≤ h.exponential_base) :
    (h.jitter = false →
      h.calculate_delay attempt x
        = min (h.base_delay * h.exponential_base ^ attempt) h.max_delay) ∧
    (h.jitter = true →
      ∃ r, h.base_delay * h.exponential_base ^ attempt * (1/2) ≤ r ∧
        r ≤ h.base_delay * h.exponential_base ^ attempt * (3/2) ∧
        h.calculate_delay attempt x = min r h.max_delay) := by
  have hraw : 0 ≤ h.base_delay * h.exponential_base ^ attempt :=
    mul_nonneg hb (pow_nonneg he _)
  constructor
  · intro hj; simp [RetryHandler.calculate_delay, hj]
  · intro hj
    refine ⟨h.base_delay * h.exponential_base ^ attempt * (1/2) +
      (h.base_delay * h.exponential_base ^ attempt * (3/2) -
       h.base_delay * h.exponential_base ^ attempt * (1/2)) * x,
      ?_, ?_, ?_⟩
    · nlinarith
    · nlinarith
    · simp [RetryHandler.calculate_delay, hj]

/-- Witness for the amended C8 theorem: with jitter disabled, attempt 2 on
the default configuration gives `min(1 × 2², 60) = 4`. -/
theorem calculate_delay_amended_witness :
    RetryHandler.calculate_delay { jitter := false } 2 (1/2)
      = min ((1 : ℚ) * 2 ^ 2) 60 := by
  have := (calculate_delay_amended ({ jitter := false } : RetryHandler) 2
    (1/2) (by norm_num) (by norm_num)
    ((by norm_num : (0:ℚ) ≤ 1))
    ((by norm_num : (0:ℚ) ≤ 2))).1 rfl
  simpa using this

theorem parse_by_css_length_le_one (env : SoupEnv) (cfg : ParseConfig)
    (url : String) : (parse_by_css env cfg url).length ≤ 1 := by
  unfold parse_by_css
  split
  · simp
  · split
    · simp
    · simp

theorem parse_by_xpath_length_le_one (env : SoupEnv) (cfg : ParseConfig)
    (url : String) : (parse_by_xpath env cfg url).length ≤ 1 := by
  unfold parse_by_xpath
  split
  · simp
  · split
    · simp
    · simp

/-- C10: in css or xpath mode `parse_html` returns at most one record —
either a single field map for the whole page (with the source URL) or an
empty list (no rules, or the top-level document parse failed); it never
emits one record per matched node. -/
theorem parse_html_at_most_one_record (env : SoupEnv) (cfg : ParseConfig)
    (url : String) (out : List (List (String × FieldVal)))
    (hout : parse_html env cfg url = Except.ok out) :
    out.length ≤ 1 := by
  unfold parse_html at hout
  split at hout
  · cases hout
    exact parse_by_css_length_le_one env cfg url
  · split at hout
    · cases hout
      exact parse_by_xpath_length_le_one env cfg url
    · cases hout

/-- Witness for C10: a css config with no rules parses any page to an empty
result list. -/
theorem parse_html_at_most_one_record_witness :
    parse_html {} { rules := [] } "http://e.com"
        = Except.ok ([] : List (List (String × FieldVal))) ∧
    ([] : List (List (String × FieldVal))).length ≤ 1 :=
  ⟨rfl, parse_html_at_most_one_record {} { rules := [] } "http://e.com" []
    rfl⟩

/-- C6: a field rule in the documented attribute-extraction form
`a::attr(href)` is never treated as an attribute extraction: the source
tests `endswith('::attr()')` — the literal string with empty parentheses —
which the `::attr(name)` form does not satisfy, so the whole selector is
handed to `soup.select`, soupsieve rejects it (modelled by `select`
returning `none`), and the field yields `None` even though the matched
node's `href` attribute is present (value `"x"`). -/
theorem attr_selector_never_extracts :
    parse_by_css
      { select := fun sel =>
          if sel = "a" then
            some [{ text := "link", attrs := [("href", "x")] }]
          else if sel = "a::attr(href)" then none
          else some [] }
      { rules := [("link", "a::attr(href)")], clean_whitespace := false,
        clean_html := false }
      "http://e.com"
      = [[("url", FieldVal.single "http://e.com"),
          ("link", FieldVal.null)]] ∧
    ("::attr()".data.isSuffixOf "a::attr(href)".data) = false ∧
    (((
      { select := fun sel =>
          if sel = "a" then
            some [{ text := "link", attrs := [("href", "x")] }]
          else if sel = "a::attr(href)" then none
          else some [] } : SoupEnv).select "a").map
        (fun els => els.filterMap (fun el => el.attrs.lookup "href")))
      = some ["x"] := by
  exact ⟨rfl, rfl, rfl⟩

theorem ltItem_iff (a b : PriorityItem) :
    PriorityItem.lt a b = true ↔
      (a.priority < b.priority ∨
        (a.priority = b.priority ∧ a.timestamp < b.timestamp)) := by
  unfold PriorityItem.lt
  by_cases h : a.priority = b.priority
  · simp [h]
  · simp [h]

theorem ltItem_irrefl (a : PriorityItem) : PriorityItem.lt a a = false := by
  simp [PriorityItem.lt]

theorem ltItem_asymm (a b : PriorityItem)
    (hab : PriorityItem.lt a b = true) : PriorityItem.lt b a = false := by
  rw [ltItem_iff] at hab
  rw [← Bool.not_eq_true, ltItem_iff]
  rintro (h | ⟨h1, h2⟩) <;> rcases hab with h' | ⟨h1', h2'⟩
  · exact absurd h' (lt_asymm h)
  · exact absurd h1' (by omega)
  · exact absurd h' (by omega)
  · exact absurd h2' (by linarith)

theorem ltItem_negtrans (a b c : PriorityItem)
    (hac : PriorityItem.lt a c = true) :
    PriorityItem.lt a b = true ∨ PriorityItem.lt b c = true := by
  rw [ltItem_iff] at hac
  rw [ltItem_iff, ltItem_iff]
  rcases hac with hp | ⟨hp, ht⟩
  · rcases lt_trichotomy a.priority b.priority with h | h | h
    · exact Or.inl (Or.inl h)
    · exact Or.inr (Or.inl (by omega))
    · exact Or.inr (Or.inl (by omega))
  · rcases lt_trichotomy a.priority b.priority with h | h | h
    · exact Or.inl (Or.inl h)
    · rcases le_or_lt b.timestamp a.timestamp with h2 | h2
      · exact Or.inr (Or.inr ⟨by omega, by linarith⟩)
      · exact Or.inl (Or.inr ⟨h, h2⟩)
    · exact Or.inr (Or.inl (by omega))

theorem findMin_mem (xs : List PriorityItem) :
    ∀ m, findMin m xs ∈ m :: xs := by
  induction xs with
  | nil => intro m; simp [findMin]
  | cons x xs ih =>
      intro m
      simp only [findMin]
      rcases List.mem_cons.mp (ih (if PriorityItem.lt x m then x else m))
        with h | h
      · rw [h]
        split
        · exact List.mem_cons_of_mem m (List.mem_cons_self x xs)
        · exact List.mem_cons_self m (x :: xs)
      · exact List.mem_cons_of_mem m (List.mem_cons_of_mem x h)

theorem findMin_not_lt (xs : List PriorityItem) :
    ∀ m y, (y = m ∨ y ∈ xs) → PriorityItem.lt y (findMin m xs) = false := by
  induction xs with
  | nil =>
      intro m y hy
      rcases hy with rfl | h
      · exact ltItem_irrefl y
      · simp at h
  | cons x xs ih =>
      intro m y hy
      simp only [findMin]
      by_cases hxm : PriorityItem.lt x m = true
      · rw [if_pos hxm]
        rcases hy with rfl | hmem
        · by_contra hc
          simp only [Bool.not_eq_false] at hc
          rcases ltItem_negtrans y x (findMin x xs) hc with h1 | h2
          · have h3 := ltItem_asymm x y hxm
            rw [h3] at h1
            exact Bool.noConfusion h1
          · have h3 := ih x x (Or.inl rfl)
            rw [h3] at h2
            exact Bool.noConfusion h2
        · rcases List.mem_cons.mp hmem with rfl | hmem'
          · exact ih _ _ (Or.inl rfl)
          · exact ih x y (Or.inr hmem')
      · rw [if_neg hxm]
        have hxm' : PriorityItem.lt x m = false := by
          simpa using hxm
        rcases hy with rfl | hmem
        · exact ih _ _ (Or.inl rfl)
        · rcases List.mem_cons.mp hmem with rfl | hmem'
          · by_contra hc
            simp only [Bool.not_eq_false] at hc
            rcases ltItem_negtrans y m (findMin m xs) hc with h1 | h2
            · rw [hxm'] at h1
              exact Bool.noConfusion h1
            · have h3 := ih m m (Or.inl rfl)
              rw [h3] at h2
              exact Bool.noConfusion h2
          · exact ih m y (Or.inr hmem')

theorem drainFuel_perm :
    ∀ n (l : List PriorityItem), l.length ≤ n →
      List.Perm (drainFuel n l) l := by
  intro n
  induction n with
  | zero =>
      intro l h
      have h0 : l = [] := List.length_eq_zero.mp (Nat.le_zero.mp h)
      subst h0
      simp [drainFuel]
  | succ n ih =>
      intro l h
      cases l with
      | nil => simp [drainFuel, heappop]
      | cons x xs =>
          simp only [drainFuel, heappop]
          have hm : findMin x xs ∈ x :: xs := findMin_mem xs x
          have hlen : ((x :: xs).erase (findMin x xs)).length ≤ n := by
            rw [List.length_erase_of_mem hm]
            simp only [List.length_cons] at h ⊢
            omega
          exact ((ih _ hlen).cons (findMin x xs)).trans
            (List.perm_cons_erase hm).symm

theorem drainFuel_order :
    ∀ n (l : List PriorityItem) (a b : PriorityItem), l.length ≤ n →
      a ∈ l → b ∈ l → PriorityItem.lt a b = true →
      (drainFuel n l).indexOf a < (drainFuel n l).indexOf b := by
  intro n
  induction n with
  | zero =>
      intro l a b h ha hb hab
      have h0 : l = [] := List.length_eq_zero.mp (Nat.le_zero.mp h)
      subst h0
      simp at ha
  | succ n ih =>
      intro l a b h ha hb hab
      cases l with
      | nil => simp at ha
      | cons x xs =>
          simp only [drainFuel, heappop]
          set m := findMin x xs with hm
          have hmem : m ∈ x :: xs := findMin_mem xs x
          have hmin : ∀ y, y ∈ x :: xs → PriorityItem.lt y m = false := by
            intro y hy
            exact findMin_not_lt xs x y
              (by simpa using List.mem_cons.mp hy)
          have hmb : m ≠ b := by
            intro hbe
            have hlow := hmin a ha
            rw [hbe] at hlow
            rw [hab] at hlow
            exact Bool.noConfusion hlow
          have hanb : a ≠ b := by
            intro h'
            rw [h', ltItem_irrefl] at hab
            exact Bool.noConfusion hab
          by_cases hma : m = a
          · rw [hma, List.indexOf_cons_self, List.indexOf_cons_ne _ hanb]
            exact Nat.succ_pos _
          · have ha' : a ∈ (x :: xs).erase m :=
              (List.mem_erase_of_ne (fun h' => hma h'.symm)).mpr ha
            have hb' : b ∈ (x :: xs).erase m :=
              (List.mem_erase_of_ne (fun h' => hmb h'.symm)).mpr hb
            have hlen : ((x :: xs).erase m).length ≤ n := by
              rw [List.length_erase_of_mem hmem]
              simp only [List.length_cons] at h ⊢
              omega
            have hrec := ih _ a b hlen ha' hb' hab
            rw [List.indexOf_cons_ne _ hma, List.indexOf_cons_ne _ hmb]
            exact Nat.succ_lt_succ hrec

/-- C5: for any queue state holding two items, if one precedes the other
by `PriorityItem.__lt__` — strictly smaller priority rank, or equal rank
with a strictly earlier enqueue timestamp — then the sequence of
`PriorityQueue.get` pops (`drainQueue`) dequeues it strictly first,
regardless of the order the items were enqueued (the list order is
arbitrary). -/
theorem priority_queue_dequeue_order (l : List PriorityItem)
    (a b : PriorityItem) (ha : a ∈ l) (hb : b ∈ l)
    (hab : PriorityItem.lt a b = true) :
    (drainQueue l).indexOf a < (drainQueue l).indexOf b := by
  unfold drainQueue
  exact drainFuel_order l.length l a b (le_refl _) ha hb hab

/-- Witness for C5: in a queue holding a rank-1 item enqueued first and a
rank-0 item enqueued second, the rank-0 item is dequeued first. -/
theorem priority_queue_dequeue_order_witness :
    (drainQueue
        [{ priority := 1, timestamp := 1, item_id := "b", data := "" },
         { priority := 0, timestamp := 2, item_id := "a", data := "" }]).indexOf
        { priority := 0, timestamp := 2, item_id := "a", data := "" } <
    (drainQueue
        [{ priority := 1, timestamp := 1, item_id := "b", data := "" },
         { priority := 0, timestamp := 2, item_id := "a", data := "" }]).indexOf
        { priority := 1, timestamp := 1, item_id := "b", data := "" } := by
  exact priority_queue_dequeue_order _ _ _ (by decide) (by decide) (by decide)

theorem splitFirstChar_absent (c : Char) :
    ∀ xs : List Char, c ∉ xs → splitFirstChar c xs = none := by
  intro xs
  induction xs with
  | nil => intro _; rfl
  | cons x xs ih =>
      intro h
      have hx : ¬ x = c := fun h' => h (by simp [h'])
      have hxs : c ∉ xs := fun h' => h (List.mem_cons_of_mem x h')
      simp [splitFirstChar, hx, ih hxs]

theorem splitFirstChar_append (c : Char) :
    ∀ xs ys : List Char, c ∉ xs →
      splitFirstChar c (xs ++ c :: ys) = some (xs, ys) := by
  intro xs
  induction xs with
  | nil => intro ys _; simp [splitFirstChar]
  | cons x xs ih =>
      intro ys h
      have hx : ¬ x = c := fun h' => h (by simp [h'])
      have hxs : c ∉ xs := fun h' => h (List.mem_cons_of_mem x h')
      simp [splitFirstChar, hx, ih ys hxs]

theorem splitAllChar_ne_nil (c : Char) :
    ∀ s : List Char, splitAllChar c s ≠ [] := by
  intro s
  induction s with
  | nil => simp [splitAllChar]
  | cons x xs ih =>
      simp only [splitAllChar]
      match h : splitAllChar c xs with
      | [] => exact absurd h ih
      | p :: ps =>
          by_cases hxc : x = c <;> simp [hxc]

theorem splitAllChar_absent (c : Char) :
    ∀ s : List Char, c ∉ s → splitAllChar c s = [s] := by
  intro s
  induction s with
  | nil => intro _; rfl
  | cons x xs ih =>
      intro h
      have hx : ¬ x = c := fun h' => h (by simp [h'])
      have hxs : c ∉ xs := fun h' => h (List.mem_cons_of_mem x h')
      simp only [splitAllChar, ih hxs]
      simp [hx]

theorem splitAllChar_append (c : Char) :
    ∀ xs ys : List Char, c ∉ xs →
      splitAllChar c (xs ++ c :: ys) = xs :: splitAllChar c ys := by
  intro xs
  induction xs with
  | nil =>
      intro ys _
      simp only [List.nil_append, splitAllChar]
      match h : splitAllChar c ys with
      | [] => exact absurd h (splitAllChar_ne_nil c ys)
      | p :: ps => simp
  | cons x xs ih =>
      intro ys h
      have hx : ¬ x = c := fun h' => h (by simp [h'])
      have hxs : c ∉ xs := fun h' => h (List.mem_cons_of_mem x h')
      simp only [List.cons_append, splitAllChar, List.append_eq]
      rw [ih ys hxs]
      simp [hx]

theorem joinChar_cons (c : Char) (p : List Char) (ps : List (List Char))
    (h : ps ≠ []) : joinChar c (p :: ps) = p ++ c :: joinChar c ps := by
  cases ps with
  | nil => exact absurd rfl h
  | cons q qs => rfl

theorem parse_qsl_buildQuery :
    ∀ l : List (List Char × List Char), (∀ kv ∈ l, goodPair kv) →
      parse_qsl (buildQuery l) = l := by
  intro l
  induction l with
  | nil => intro _; rfl
  | cons kv rest ih =>
      intro hwf
      obtain ⟨hk, hv, hak, hek, _, hav, hev, _⟩ := hwf kv (by simp)
      have hchunk : '&' ∉ kv.1 ++ '=' :: kv.2 := by
        intro hmem
        rcases List.mem_append.mp hmem with h | h
        · exact hak h
        · rcases List.mem_cons.mp h with h | h
          · exact absurd h.symm (by simp)
          · exact hav h
      cases rest with
      | nil =>
          simp only [buildQuery, List.map, joinChar, parse_qsl]
          rw [splitAllChar_absent '&' _ hchunk]
          simp only [List.filterMap]
          rw [splitFirstChar_append '=' kv.1 kv.2 hek]
          have hne : ¬ (kv.1 ++ '=' :: kv.2 = []) := by simp
          simp [hne, hv]
      | cons kv2 rest2 =>
          have hstep : buildQuery (kv :: kv2 :: rest2)
              = (kv.1 ++ '=' :: kv.2) ++ '&' ::
                buildQuery (kv2 :: rest2) := by
            simp only [buildQuery, List.map]
            rw [joinChar_cons '&' _ _ (by simp)]
          simp only [parse_qsl] at ih ⊢
          rw [hstep, splitAllChar_append '&' _ _ hchunk]
          simp only [List.filterMap]
          rw [splitFirstChar_append '=' kv.1 kv.2 hek]
          have hne : ¬ (kv.1 ++ '=' :: kv.2 = []) := by simp
          simp only [hne, if_false, hv]
          have := ih (fun kv' h' => hwf kv' (List.mem_cons_of_mem kv h'))
          simp only [parse_qsl] at this
          simp [hv, this]

theorem lexLt_asymm : ∀ a b : List Char, lexLt a b = true →
    lexLt b a = false := by
  intro a
  induction a with
  | nil =>
      intro b h
      cases b with
      | nil => simp [lexLt] at h
      | cons y ys => simp [lexLt]
  | cons x xs ih =>
      intro b h
      cases b with
      | nil => simp [lexLt] at h
      | cons y ys =>
          simp only [lexLt] at h ⊢
          by_cases h1 : x < y
          · simp [lt_asymm h1, h1]
          · by_cases h2 : y < x
            · simp [h1, h2] at h
            · simp only [h1, h2, if_false] at h ⊢
              exact ih ys h

theorem lexLt_antisymm_eq : ∀ a b : List Char, lexLt a b = false →
    lexLt b a = false → a = b := by
  intro a
  induction a with
  | nil =>
      intro b h1 h2
      cases b with
      | nil => rfl
      | cons y ys => simp [lexLt] at h1
  | cons x xs ih =>
      intro b h1 h2
      cases b with
      | nil => simp [lexLt] at h2
      | cons y ys =>
          simp only [lexLt] at h1 h2
          by_cases hxy : x < y
          · simp [hxy] at h1
          · by_cases hyx : y < x
            · simp [hyx, lt_asymm hyx] at h2
            · have hc : x = y := le_antisymm (not_lt.mp hyx) (not_lt.mp hxy)
              simp only [hxy, hyx, if_false] at h1 h2
              rw [hc, ih ys h1 h2]

theorem lexLt_negtrans : ∀ a b c : List Char, lexLt a c = true →
    lexLt a b = true ∨ lexLt b c = true := by
  intro a
  induction a with
  | nil =>
      intro b c h
      cases b with
      | nil => exact Or.inr h
      | cons z zs => exact Or.inl (by simp [lexLt])
  | cons x xs ih =>
      intro b c h
      cases c with
      | nil => simp [lexLt] at h
      | cons y ys =>
          cases b with
          | nil => exact Or.inr (by simp [lexLt])
          | cons z zs =>
              simp only [lexLt] at h ⊢
              by_cases hxz : x < z
              · exact Or.inl (by simp [hxz])
              · by_cases hzy : z < y
                · exact Or.inr (by simp [hzy])
                · by_cases hxy : x < y
                  · exfalso
                    have hzx : z ≤ x := not_lt.mp hxz
                    have hyz : y ≤ z := not_lt.mp hzy
                    exact absurd hxy (not_lt.mpr (le_trans hyz hzx))
                  · by_cases hyx : y < x
                    · simp [hxy, hyx] at h
                    · have hzx : z ≤ x := not_lt.mp hxz
                      have hyz : y ≤ z := not_lt.mp hzy
                      have hxy' : x ≤ y := not_lt.mp hyx
                      have hxz : x = z := le_antisymm (le_trans hxy' hyz) hzx
                      have hzy : z = y := le_antisymm
                        (le_trans hzx hxy') hyz
                      subst hxz
                      subst hzy
                      simp only [lt_irrefl, if_false] at h ⊢
                      exact ih zs ys h

theorem insertByKey_perm (x : List Char × β) :
    ∀ l, List.Perm (insertByKey x l) (x :: l) := by
  intro l
  induction l with
  | nil => exact List.Perm.refl _
  | cons y ys ih =>
      simp only [insertByKey]
      split
      · exact (ih.cons y).trans (List.Perm.swap x y ys)
      · exact List.Perm.refl _

theorem sortByKey_perm :
    ∀ l : List (List Char × β), List.Perm (sortByKey l) l := by
  intro l
  induction l with
  | nil => exact List.Perm.refl _
  | cons x xs ih =>
      simp only [sortByKey, List.foldr]
      exact (insertByKey_perm x _).trans (ih.cons x)

theorem insertByKey_sorted (x : List Char × β) :
    ∀ l, List.Pairwise (fun g1 g2 => lexLt g2.1 g1.1 = false) l →
      List.Pairwise (fun g1 g2 => lexLt g2.1 g1.1 = false)
        (insertByKey x l) := by
  intro l
  induction l with
  | nil => intro _; simp [insertByKey]
  | cons y ys ih =>
      intro hp
      obtain ⟨hyall, hys⟩ := List.pairwise_cons.mp hp
      simp only [insertByKey]
      by_cases hxy : lexLt y.1 x.1 = true
      · rw [if_pos hxy]
        apply List.pairwise_cons.mpr
        refine ⟨fun z hz => ?_, ih hys⟩
        have hz' : z ∈ x :: ys := (insertByKey_perm x ys).mem_iff.mp hz
        rcases List.mem_cons.mp hz' with rfl | hz''
        · exact lexLt_asymm _ _ hxy
        · exact hyall z hz''
      · rw [if_neg hxy]
        have hxy' : lexLt y.1 x.1 = false := by simpa using hxy
        apply List.pairwise_cons.mpr
        refine ⟨fun z hz => ?_, hp⟩
        rcases List.mem_cons.mp hz with rfl | hz'
        · exact hxy'
        · by_contra hc
          simp only [Bool.not_eq_false] at hc
          rcases lexLt_negtrans z.1 y.1 x.1 hc with h1 | h2
          · rw [hyall z hz'] at h1
            exact Bool.noConfusion h1
          · rw [hxy'] at h2
            exact Bool.noConfusion h2

theorem sortByKey_sorted :
    ∀ l : List (List Char × β),
      List.Pairwise (fun g1 g2 => lexLt g2.1 g1.1 = false) (sortByKey l) := by
  intro l
  induction l with
  | nil => exact List.Pairwise.nil
  | cons x xs ih =>
      simp only [sortByKey, List.foldr]
      exact insertByKey_sorted x _ ih

theorem sorted_nodup_perm_eq :
    ∀ l1 l2 : List (List Char × β), List.Perm l1 l2 →
      List.Pairwise (fun g1 g2 => lexLt g2.1 g1.1 = false) l1 →
      List.Pairwise (fun g1 g2 => lexLt g2.1 g1.1 = false) l2 →
      (l1.map Prod.fst).Nodup → l1 = l2 := by
  intro l1
  induction l1 with
  | nil =>
      intro l2 hperm _ _ _
      exact hperm.nil_eq
  | cons x xs ih =>
      intro l2 hperm hs1 hs2 hnodup
      cases l2 with
      | nil =>
          have := hperm.length_eq
          simp at this
      | cons y ys =>
          obtain ⟨hxall, hxs⟩ := List.pairwise_cons.mp hs1
          obtain ⟨hyall, hys⟩ := List.pairwise_cons.mp hs2
          have hxy : x = y := by
            have hx2 : x ∈ y :: ys := hperm.mem_iff.mp (by simp)
            have hy1 : y ∈ x :: xs := hperm.symm.mem_iff.mp (by simp)
            rcases List.mem_cons.mp hx2 with h | hxys
            · exact h
            rcases List.mem_cons.mp hy1 with h | hyxs
            · exact h.symm
            exfalso
            have h1 : lexLt y.1 x.1 = false := hxall y hyxs
            have h2 : lexLt x.1 y.1 = false := hyall x hxys
            have hk : x.1 = y.1 := lexLt_antisymm_eq x.1 y.1 h2 h1
            simp only [List.map, List.nodup_cons] at hnodup
            exact hnodup.1 (hk ▸ List.mem_map_of_mem Prod.fst hyxs)
          subst hxy
          have htail := hperm.cons_inv
          have hnodup' : (xs.map Prod.fst).Nodup := by
            simp only [List.map, List.nodup_cons] at hnodup
            exact hnodup.2
          rw [ih ys htail hxs hys hnodup']

theorem qsFold_nodup :
    ∀ (l : List (List Char × List Char))
      (acc : List (List Char × List (List Char))),
      (∀ g ∈ acc, ∀ kv ∈ l, g.1 ≠ kv.1) → (l.map Prod.fst).Nodup →
      l.foldl qsInsert acc = acc ++ l.map (fun kv => (kv.1, [kv.2])) := by
  intro l
  induction l with
  | nil => intro acc _ _; simp
  | cons kv rest ih =>
      intro acc hdisj hnodup
      simp only [List.foldl]
      have hany : acc.any (·.1 = kv.1) = false := by
        rw [Bool.eq_false_iff]
        intro hcontr
        rcases List.any_eq_true.mp hcontr with ⟨g, hg, hgk⟩
        exact hdisj g hg kv (by simp) (by simpa using hgk)
      have hq : qsInsert acc kv = acc ++ [(kv.1, [kv.2])] := by
        simp [qsInsert, hany]
      rw [hq]
      simp only [List.map, List.nodup_cons] at hnodup
      have hdisj' : ∀ g ∈ acc ++ [(kv.1, [kv.2])], ∀ kv' ∈ rest,
          g.1 ≠ kv'.1 := by
        intro g hg kv' hkv'
        rcases List.mem_append.mp hg with h | h
        · exact hdisj g h kv' (List.mem_cons_of_mem kv hkv')
        · simp only [List.mem_singleton] at h
          subst h
          intro he
          exact hnodup.1 (he ▸ List.mem_map_of_mem Prod.fst hkv')
      rw [ih (acc ++ [(kv.1, [kv.2])]) hdisj' hnodup.2]
      simp

theorem parse_qs_buildQuery (l : List (List Char × List Char))
    (hwf : ∀ kv ∈ l, goodPair kv) (hnodup : (l.map Prod.fst).Nodup) :
    parse_qs (buildQuery l) = l.map (fun kv => (kv.1, [kv.2])) := by
  unfold parse_qs
  rw [parse_qsl_buildQuery l hwf]
  simpa using qsFold_nodup l [] (by simp) hnodup

theorem urlparseM_mkUrl (scheme netloc path query : List Char)
    (hs1 : ':' ∉ scheme) (hs2 : '?' ∉ scheme)
    (hn1 : '/' ∉ netloc) (hn2 : '?' ∉ netloc) (hp1 : '?' ∉ path)
    (hpath : path = [] ∨ ∃ p, path = '/' :: p) :
    urlparseM (mkUrl scheme netloc path query)
      = ⟨scheme, netloc, path, query⟩ := by
  have hshape : mkUrl scheme netloc path query
      = (scheme ++ ':' :: '/' :: '/' :: (netloc ++ path)) ++ '?' :: query := by
    simp [mkUrl]
  have hprefix : '?' ∉ scheme ++ ':' :: '/' :: '/' :: (netloc ++ path) := by
    intro h
    rcases List.mem_append.mp h with h | h
    · exact hs2 h
    · rcases List.mem_cons.mp h with h | h
      · exact absurd h (by decide)
      rcases List.mem_cons.mp h with h | h
      · exact absurd h (by decide)
      rcases List.mem_cons.mp h with h | h
      · exact absurd h (by decide)
      rcases List.mem_append.mp h with h | h
      · exact hn2 h
      · exact hp1 h
  have hsplit1 := splitFirstChar_append '?'
    (scheme ++ ':' :: '/' :: '/' :: (netloc ++ path)) query hprefix
  have hsplit2 : splitFirstChar ':'
      (scheme ++ ':' :: '/' :: '/' :: (netloc ++ path))
      = some (scheme, '/' :: '/' :: (netloc ++ path)) :=
    splitFirstChar_append ':' scheme ('/' :: '/' :: (netloc ++ path)) hs1
  rw [hshape]
  unfold urlparseM
  rw [hsplit1]
  simp only
  rw [hsplit2]
  simp only
  rcases hpath with rfl | ⟨p, rfl⟩
  · rw [List.append_nil]
    rw [splitFirstChar_absent '/' netloc hn1]
  · rw [splitFirstChar_append '/' netloc p hn1]

theorem sortByKey_filter_perm (P : List Char × List (List Char) → Bool)
    (m1 m2 : List (List Char × List (List Char)))
    (hperm : List.Perm m1 m2) (hnodup : (m1.map Prod.fst).Nodup) :
    sortByKey (m1.filter P) = sortByKey (m2.filter P) := by
  apply sorted_nodup_perm_eq
  · exact (sortByKey_perm _).trans
      ((hperm.filter P).trans (sortByKey_perm _).symm)
  · exact sortByKey_sorted _
  · exact sortByKey_sorted _
  · have hsub : ((m1.filter P).map Prod.fst).Nodup :=
      ((List.filter_sublist m1).map Prod.fst).nodup hnodup
    exact ((sortByKey_perm (m1.filter P)).map Prod.fst).nodup_iff.mpr hsub

theorem wrap_keys (l : List (List Char × List Char)) :
    ((l.map (fun kv => (kv.1, [kv.2]))).map Prod.fst) = l.map Prod.fst := by
  simp [List.map_map]

theorem filter_map_wrap (l : List (List Char × List Char))
    (ign : List (List Char)) :
    ((l.map (fun kv => (kv.1, [kv.2]))).filter (fun g => ¬ g.1 ∈ ign))
      = (l.filter (fun kv => ¬ kv.1 ∈ ign)).map
          (fun kv => (kv.1, [kv.2])) := by
  induction l with
  | nil => rfl
  | cons kv rest ih =>
      simp only [List.map, List.filter]
      by_cases h : kv.1 ∈ ign
      · simpa [h] using ih
      · simpa [h] using ih

theorem normalize_url_query_perm (fp : RequestFingerprinter)
    (hsort : fp.sort_parameters = true)
    (scheme netloc path : List Char)
    (hs1 : ':' ∉ scheme) (hs2 : '?' ∉ scheme) (hn1 : '/' ∉ netloc)
    (hn2 : '?' ∉ netloc) (hp1 : '?' ∉ path)
    (hpath : path = [] ∨ ∃ p, path = '/' :: p)
    (l1 l2 : List (List Char × List Char))
    (hwf1 : ∀ kv ∈ l1, goodPair kv) (hperm : List.Perm l1 l2)
    (hnodup : (l1.map Prod.fst).Nodup) :
    fp.normalize_url (mkUrl scheme netloc path (buildQuery l1))
      = fp.normalize_url (mkUrl scheme netloc path (buildQuery l2)) := by
  have hwf2 : ∀ kv ∈ l2, goodPair kv :=
    fun kv h => hwf1 kv (hperm.mem_iff.mpr h)
  have hnodup2 : (l2.map Prod.fst).Nodup :=
    ((hperm.map Prod.fst).nodup_iff).mp hnodup
  unfold RequestFingerprinter.normalize_url
  rw [urlparseM_mkUrl _ _ _ _ hs1 hs2 hn1 hn2 hp1 hpath,
    urlparseM_mkUrl _ _ _ _ hs1 hs2 hn1 hn2 hp1 hpath]
  simp only
  rw [parse_qs_buildQuery l1 hwf1 hnodup,
    parse_qs_buildQuery l2 hwf2 hnodup2, hsort]
  simp only [if_true]
  rw [sortByKey_filter_perm _ _ _
    (hperm.map (fun kv => (kv.1, [kv.2])))
    (by rw [wrap_keys]; exact hnodup)]

theorem filter_map_qsUpd (ign : List (List Char))
    (kv : List Char × List Char) :
    ∀ acc : List (List Char × List (List Char)),
      List.filter (fun g => ¬ g.1 ∈ ign)
          (acc.map (fun g => if g.1 = kv.1 then (g.1, g.2 ++ [kv.2]) else g))
        = List.map (fun g => if g.1 = kv.1 then (g.1, g.2 ++ [kv.2]) else g)
            (acc.filter (fun g => ¬ g.1 ∈ ign)) := by
  intro acc
  induction acc with
  | nil => rfl
  | cons g rest ih =>
      by_cases hP : g.1 ∈ ign
      · by_cases hg : g.1 = kv.1
        · simp only [List.map_cons, List.filter_cons, if_pos hg]
          rw [if_neg (by simp [hP]), if_neg (by simp [hP])]
          exact ih
        · simp only [List.map_cons, List.filter_cons, if_neg hg]
          rw [if_neg (by simp [hP]), if_neg (by simp [hP])]
          exact ih
      · by_cases hg : g.1 = kv.1
        · simp only [List.map_cons, List.filter_cons, if_pos hg]
          rw [if_pos (by simp [hP]), if_pos (by simp [hP])]
          simp only [List.map_cons, if_pos hg]
          rw [ih]
        · simp only [List.map_cons, List.filter_cons, if_neg hg]
          rw [if_pos (by simp [hP]), if_pos (by simp [hP])]
          simp only [List.map_cons, if_neg hg]
          rw [ih]

theorem map_qsUpd_id_of_dropped (ign : List (List Char))
    (kv : List Char × List Char) (hkv : kv.1 ∈ ign) :
    ∀ acc : List (List Char × List (List Char)),
      List.map (fun g => if g.1 = kv.1 then (g.1, g.2 ++ [kv.2]) else g)
          (acc.filter (fun g => ¬ g.1 ∈ ign))
        = acc.filter (fun g => ¬ g.1 ∈ ign) := by
  intro acc
  induction acc with
  | nil => rfl
  | cons g rest ih =>
      by_cases hP : g.1 ∈ ign
      · simp only [List.filter_cons]
        rw [if_neg (by simp [hP])]
        exact ih
      · have hg : ¬ g.1 = kv.1 := fun h => hP (h ▸ hkv)
        simp only [List.filter_cons]
        rw [if_pos (by simp [hP])]
        simp only [List.map_cons, if_neg hg]
        rw [ih]

theorem any_key_filter (ign : List (List Char))
    (kv : List Char × List Char) (hkv : ¬ kv.1 ∈ ign) :
    ∀ acc : List (List Char × List (List Char)),
      ((acc.filter (fun g => ¬ g.1 ∈ ign)).any (·.1 = kv.1))
        = acc.any (·.1 = kv.1) := by
  intro acc
  induction acc with
  | nil => rfl
  | cons g rest ih =>
      by_cases hg : g.1 = kv.1
      · have hP : ¬ g.1 ∈ ign := hg ▸ hkv
        simp only [List.filter_cons]
        rw [if_pos (by simp [hP])]
        simp only [List.any_cons]
        simp [hg]
      · by_cases hP : g.1 ∈ ign
        · simp only [List.filter_cons]
          rw [if_neg (by simp [hP])]
          simp only [List.any_cons]
          rw [ih]
          simp [hg]
        · simp only [List.filter_cons]
          rw [if_pos (by simp [hP])]
          simp only [List.any_cons]
          rw [ih]

theorem qsInsert_filter_kept (ign : List (List Char))
    (kv : List Char × List Char) (hkv : ¬ kv.1 ∈ ign)
    (acc : List (List Char × List (List Char))) :
    List.filter (fun g => ¬ g.1 ∈ ign) (qsInsert acc kv)
      = qsInsert (List.filter (fun g => ¬ g.1 ∈ ign) acc) kv := by
  unfold qsInsert
  rw [any_key_filter ign kv hkv acc]
  by_cases hany : (acc.any (·.1 = kv.1)) = true
  · rw [if_pos hany, if_pos hany]
    exact filter_map_qsUpd ign kv acc
  · rw [if_neg hany, if_neg hany]
    simp [List.filter_append, hkv]

theorem qsInsert_filter_dropped (ign : List (List Char))
    (kv : List Char × List Char) (hkv : kv.1 ∈ ign)
    (acc : List (List Char × List (List Char))) :
    List.filter (fun g => ¬ g.1 ∈ ign) (qsInsert acc kv)
      = acc.filter (fun g => ¬ g.1 ∈ ign) := by
  unfold qsInsert
  by_cases hany : (acc.any (·.1 = kv.1)) = true
  · rw [if_pos hany]
    rw [filter_map_qsUpd ign kv acc, map_qsUpd_id_of_dropped ign kv hkv acc]
  · rw [if_neg hany]
    simp [List.filter_append, hkv]

theorem filter_foldl_qsInsert (ign : List (List Char)) :
    ∀ (l : List (List Char × List Char))
      (acc : List (List Char × List (List Char))),
      ((l.foldl qsInsert acc).filter (fun g => ¬ g.1 ∈ ign))
        = (l.filter (fun kv => ¬ kv.1 ∈ ign)).foldl qsInsert
            (acc.filter (fun g => ¬ g.1 ∈ ign)) := by
  intro l
  induction l with
  | nil => intro acc; rfl
  | cons kv rest ih =>
      intro acc
      simp only [List.foldl, List.filter_cons]
      by_cases hkv : kv.1 ∈ ign
      · rw [if_neg (by simp [hkv]), ih (qsInsert acc kv),
          qsInsert_filter_dropped ign kv hkv]
      · rw [if_pos (by simp [hkv]), ih (qsInsert acc kv),
          qsInsert_filter_kept ign kv hkv]
        simp only [List.foldl]

theorem normalize_url_ignored_params (fp : RequestFingerprinter)
    (hsort : fp.sort_parameters = true)
    (scheme netloc path : List Char)
    (hs1 : ':' ∉ scheme) (hs2 : '?' ∉ scheme) (hn1 : '/' ∉ netloc)
    (hn2 : '?' ∉ netloc) (hp1 : '?' ∉ path)
    (hpath : path = [] ∨ ∃ p, path = '/' :: p)
    (l1 l2 : List (List Char × List Char))
    (hwf1 : ∀ kv ∈ l1, goodPair kv) (hwf2 : ∀ kv ∈ l2, goodPair kv)
    (hfilter : l1.filter
        (fun kv => ¬ kv.1 ∈ fp.ignore_params.map String.data)
      = l2.filter
        (fun kv => ¬ kv.1 ∈ fp.ignore_params.map String.data)) :
    fp.normalize_url (mkUrl scheme netloc path (buildQuery l1))
      = fp.normalize_url (mkUrl scheme netloc path (buildQuery l2)) := by
  have hpq1 : parse_qs (buildQuery l1) = l1.foldl qsInsert [] := by
    unfold parse_qs
    rw [parse_qsl_buildQuery l1 hwf1]
  have hpq2 : parse_qs (buildQuery l2) = l2.foldl qsInsert [] := by
    unfold parse_qs
    rw [parse_qsl_buildQuery l2 hwf2]
  unfold RequestFingerprinter.normalize_url
  rw [urlparseM_mkUrl _ _ _ _ hs1 hs2 hn1 hn2 hp1 hpath,
    urlparseM_mkUrl _ _ _ _ hs1 hs2 hn1 hn2 hp1 hpath]
  simp only
  rw [hpq1, hpq2, hsort]
  simp only [if_true]
  rw [filter_foldl_qsInsert _ l1 [], filter_foldl_qsInsert _ l2 []]
  simp only [List.filter_nil]
  rw [hfilter]

theorem normalize_headers_append_ignored (fp : RequestFingerprinter)
    (headers : List (String × String)) (k v : String)
    (hk : k.data.map Char.toLower
      ∈ fp.ignore_headers.map (fun s => s.data.map Char.toLower)) :
    fp.normalize_headers (headers ++ [(k, v)])
      = fp.normalize_headers headers := by
  unfold RequestFingerprinter.normalize_headers
  simp only [List.map_append, List.filter_append]
  have hdrop : List.filter
      (fun kv => ¬ kv.1 ∈ fp.ignore_headers.map
        (fun s => s.data.map Char.toLower))
      (List.map (fun kv => (kv.1.data.map Char.toLower, kv.2.data))
        [(k, v)]) = [] := by
    rcases List.mem_map.mp hk with ⟨s, hs, hseq⟩
    refine List.filter_eq_nil_iff.mpr ?_
    intro a ha
    simp only [List.map, List.mem_singleton] at ha
    subst ha
    simp only [decide_not, Bool.not_eq_true', Bool.not_eq_false]
    exact decide_eq_true (List.mem_map.mpr ⟨s, hs, hseq⟩)
  rw [hdrop, List.append_nil]

theorem normalize_headers_append_ignored_list (fp : RequestFingerprinter) :
    ∀ (extra headers : List (String × String)),
      (∀ kv ∈ extra, kv.1.data.map Char.toLower
        ∈ fp.ignore_headers.map (fun s => s.data.map Char.toLower)) →
      fp.normalize_headers (headers ++ extra)
        = fp.normalize_headers headers := by
  intro extra
  induction extra with
  | nil => intro headers _; rw [List.append_nil]
  | cons x rest ih =>
      intro headers hall
      obtain ⟨k, v⟩ := x
      have hsplit : headers ++ (k, v) :: rest
          = (headers ++ [(k, v)]) ++ rest := by simp
      rw [hsplit,
        ih (headers ++ [(k, v)])
          (fun kv h => hall kv (List.mem_cons_of_mem (k, v) h)),
        normalize_headers_append_ignored fp headers k v
          (hall (k, v) (List.mem_cons_self (k, v) rest))]

